import Mathlib

/-!
A shallow embedding of the NBT binary decoder in `nbt.hpp` (namespace `nbt`).

Modelling conventions:
* The byte source (`std::istream`) is modelled by `Stm`: a finite list of
  bytes, a read position, and the stream's fail flag.  `std::istream::read`
  that cannot deliver all requested bytes stores the bytes it could extract,
  sets the fail flag, and performs no extraction at all once the fail flag is
  set.  The contents of uninitialized stack variables that a failed read
  leaves behind are modelled by an explicit oracle `junk : Nat → Nat`
  together with a counter `junkPos`, so every theorem is quantified over all
  possible indeterminate memory contents.
* Multi-byte numerics on the wire are big-endian; `readStream<T>` copies the
  raw bytes and byte-swaps on a little-endian host, so the decoded value is
  exactly the big-endian interpretation of the wire bytes (`beVal`).
  Signed integer types are two's complement (`toSigned`).  `float`/`double`
  payloads are carried as their 32/64-bit patterns: the decoder never
  computes with them, it only reassembles bytes.
* C++ exceptions are the only failure channel of the decoder; they are
  modelled by `Except Err`.  A failed `istream` read is *not* an exception
  and therefore produces a value, not an `Err`.
* The recursive decode (`makeTag` / `TagList::decode` / `TagCompound::decode`)
  is embedded with an explicit fuel argument; `Err.fuel` marks fuel
  exhaustion and corresponds to no behaviour of the C++ code (which can
  recurse unboundedly on adversarial input).
-/

/-- The istream model: byte data, current position, fail flag, and the
position of the indeterminate-memory oracle. -/
structure Stm where
  data : List Nat
  pos : Nat
  fail : Bool
  junkPos : Nat
deriving DecidableEq

/-- The oracle providing the contents of uninitialized memory that a failed
`istream::read` leaves in place. -/
def Junk : Type := Nat → Nat

/-- `n` indeterminate bytes drawn from the oracle starting at `start`. -/
def junkList (junk : Junk) (start n : Nat) : List Nat :=
  (List.range n).map (fun i => junk (start + i))

/-- `buf.read(ptr, n)`: if the fail flag is set, nothing is extracted and the
destination keeps its indeterminate contents; if `n` bytes are available they
are extracted; otherwise the available bytes are extracted, the rest of the
destination keeps its indeterminate contents, and the fail flag is set. -/
def readBytesC (junk : Junk) (n : Nat) (s : Stm) : List Nat × Stm :=
  if s.fail then
    (junkList junk s.junkPos n, { s with junkPos := s.junkPos + n })
  else
    let avail := s.data.length - s.pos
    if n ≤ avail then
      ((s.data.drop s.pos).take n, { s with pos := s.pos + n })
    else
      ((s.data.drop s.pos).take avail ++ junkList junk s.junkPos (n - avail),
        { s with pos := s.data.length, fail := true,
                 junkPos := s.junkPos + (n - avail) })

/-- Big-endian interpretation of a byte list (each entry reduced mod 256). -/
def beVal (bs : List Nat) : Nat :=
  bs.foldl (fun a b => a * 256 + b % 256) 0

/-- Two's-complement reading of a `w`-bit pattern. -/
def toSigned (w : Nat) (v : Nat) : Int :=
  if v % 2 ^ w < 2 ^ (w - 1) then ((v % 2 ^ w : Nat) : Int)
  else ((v % 2 ^ w : Nat) : Int) - 2 ^ w

/-- `readStream<T>` for an unsigned numeric `T` of `nb` bytes (also used for
the `float`/`double` bit patterns): read `sizeof(T)` raw bytes and apply
`endian::refineBigEndian`, i.e. interpret them big-endian.  Note the source
(`nbt.hpp` lines 116-121) performs no check of the stream state: a short
read yields a value built from the extracted bytes plus indeterminate
memory, and the function always returns. -/
def readStreamNat (junk : Junk) (nb : Nat) (s : Stm) : Nat × Stm :=
  let r := readBytesC junk nb s
  (beVal r.1, r.2)

/-- `readStream<T>` for a signed numeric `T` of `nb` bytes
(`int8_t`/`int16_t`/`int32_t`/`int64_t`). -/
def readStreamInt (junk : Junk) (nb : Nat) (s : Stm) : Int × Stm :=
  let r := readStreamNat junk nb s
  (toSigned (8 * nb) r.1, r.2)

/-- `readStream<std::string>` (`nbt.hpp` lines 123-131): read a big-endian
`uint16_t` length `len`, allocate `std::vector<char> tmp(len + 1)` (value
initialised, i.e. all zero bytes), `buf.read(tmp.data(), len)`, and build the
string from the *whole* vector range — the result therefore always has
`len + 1` bytes, the extracted bytes padded with the vector's zero bytes. -/
def readStreamString (junk : Junk) (s : Stm) : List Nat × Stm :=
  let r := readStreamNat junk 2 s
  let len := r.1
  let s1 := r.2
  if s1.fail then (List.replicate (len + 1) 0, s1)
  else
    let avail := s1.data.length - s1.pos
    if len ≤ avail then
      ((s1.data.drop s1.pos).take len ++ [0], { s1 with pos := s1.pos + len })
    else
      ((s1.data.drop s1.pos).take avail ++ List.replicate (len - avail + 1) 0,
        { s1 with pos := s1.data.length, fail := true })

/-- `readStream<TagType>` (`nbt.hpp` lines 133-136): one `uint8_t`,
`static_cast` to `TagType` with no validation whatsoever. -/
def readStreamTagType (junk : Junk) (s : Stm) : Nat × Stm :=
  readStreamNat junk 1 s

/-- A decoded tag node: every constructor carries the optional name
(`std::optional<std::string>`, names are byte lists) and the payload of the
corresponding `Tag` subclass.  Constructor order follows the `TagType`
enumeration ids 1-12. -/
inductive Node where
  | byteN (name : Option (List Nat)) (v : Int)
  | shortN (name : Option (List Nat)) (v : Int)
  | intN (name : Option (List Nat)) (v : Int)
  | longN (name : Option (List Nat)) (v : Int)
  | floatN (name : Option (List Nat)) (bits : Nat)
  | doubleN (name : Option (List Nat)) (bits : Nat)
  | byteArrN (name : Option (List Nat)) (vs : List Int)
  | strN (name : Option (List Nat)) (bs : List Nat)
  | listN (name : Option (List Nat)) (elemType : Nat) (elems : List Node)
  | compoundN (name : Option (List Nat)) (entries : List (List Nat × Node))
  | intArrN (name : Option (List Nat)) (vs : List Int)
  | longArrN (name : Option (List Nat)) (vs : List Int)

/-- The node's optional name (`Tag::getName`). -/
def Node.nameOf : Node → Option (List Nat)
  | .byteN n _ => n
  | .shortN n _ => n
  | .intN n _ => n
  | .longN n _ => n
  | .floatN n _ => n
  | .doubleN n _ => n
  | .byteArrN n _ => n
  | .strN n _ => n
  | .listN n _ _ => n
  | .compoundN n _ => n
  | .intArrN n _ => n
  | .longArrN n _ => n

/-- The node's tag-type id (`Tag::getTagType`, as its wire id). -/
def Node.typeId : Node → Nat
  | .byteN _ _ => 1
  | .shortN _ _ => 2
  | .intN _ _ => 3
  | .longN _ _ => 4
  | .floatN _ _ => 5
  | .doubleN _ _ => 6
  | .byteArrN _ _ => 7
  | .strN _ _ => 8
  | .listN _ _ _ => 9
  | .compoundN _ _ => 10
  | .intArrN _ _ => 11
  | .longArrN _ _ => 12

/-- The C++ exceptions thrown by the decoder, plus the fuel marker of the
embedding. -/
inductive Err where
  /-- `TagList::decode`: `"not implement for variant length list"`. -/
  | listLen
  /-- `makeTag`: `std::invalid_argument`, asked to construct `TAG_END`. -/
  | makeEnd
  /-- `makeTag`: `"TagType <id> not found"`. -/
  | makeUnknown (id : Nat)
  /-- `readDocument`: `"document should be a named compound"`. -/
  | notCompound
  /-- Fuel exhaustion of the embedding (no C++ counterpart). -/
  | fuel
deriving DecidableEq

/-- `std::unordered_map::insert`: inserts only if the key is not already
present (the mapping keeps the first value bound to a key).  The entry list
records the key → node mapping; its order is not observable in the map. -/
def insertNew (m : List (List Nat × Node)) (k : List Nat) (v : Node) :
    List (List Nat × Node) :=
  if m.any (fun p => p.1 == k) then m else m ++ [(k, v)]

/-- The element loop of `TagArray::decode`: `val_.resize(len)` then one
`readStream<T>` per element, in order. -/
def readElems (junk : Junk) (nb : Nat) : Nat → Stm → List Int × Stm
  | 0, s => ([], s)
  | n + 1, s =>
    let r := readStreamInt junk nb s
    let rest := readElems junk nb n r.2
    (r.1 :: rest.1, rest.2)

/-- `TagArray::decode` (`nbt.hpp` lines 218-228): the length is read with
`readStream<uint32_t>` — an *unsigned* 32-bit value — and the guard
`len <= 0` therefore only triggers for `len == 0`; otherwise exactly `len`
elements of `nb` bytes each are read. -/
def decodeArray (junk : Junk) (nb : Nat) (s : Stm) : List Int × Stm :=
  let r := readStreamNat junk 4 s
  if r.1 ≤ 0 then ([], r.2)
  else readElems junk nb r.1 r.2

mutual

/-- `makeTag` (`nbt.hpp` lines 247-293): dispatch on the tag-type id,
construct the node of that kind and let it decode its payload;
`TAG_END` throws `std::invalid_argument`, any id outside 0-12 throws
`std::runtime_error` ("not found").  The extra first argument is fuel. -/
def makeTag (junk : Junk) : Nat → Nat → Option (List Nat) → Stm →
    Except Err (Node × Stm)
  | 0, _, _, _ => .error .fuel
  | fuel + 1, ty, name, s =>
    match ty with
    | 0 => .error .makeEnd
    | 1 => let r := readStreamInt junk 1 s; .ok (.byteN name r.1, r.2)
    | 2 => let r := readStreamInt junk 2 s; .ok (.shortN name r.1, r.2)
    | 3 => let r := readStreamInt junk 4 s; .ok (.intN name r.1, r.2)
    | 4 => let r := readStreamInt junk 8 s; .ok (.longN name r.1, r.2)
    | 5 => let r := readStreamNat junk 4 s; .ok (.floatN name r.1, r.2)
    | 6 => let r := readStreamNat junk 8 s; .ok (.doubleN name r.1, r.2)
    | 7 => let r := decodeArray junk 1 s; .ok (.byteArrN name r.1, r.2)
    | 8 => let r := readStreamString junk s; .ok (.strN name r.1, r.2)
    | 9 => decodeList junk fuel name s
    | 10 => decodeCompound junk fuel name s
    | 11 => let r := decodeArray junk 4 s; .ok (.intArrN name r.1, r.2)
    | 12 => let r := decodeArray junk 8 s; .ok (.longArrN name r.1, r.2)
    | other => .error (.makeUnknown other)

/-- `TagList::decode` (`nbt.hpp` lines 319-333): element tag type, then a
*signed* `int32_t` length; `length <= 0` throws ("not implement for variant
length list"); otherwise `length` elements are decoded through `makeTag`
with no name. -/
def decodeList (junk : Junk) : Nat → Option (List Nat) → Stm →
    Except Err (Node × Stm)
  | 0, _, _ => .error .fuel
  | fuel + 1, name, s =>
    let rt := readStreamTagType junk s
    let rl := readStreamInt junk 4 rt.2
    if rl.1 ≤ 0 then .error .listLen
    else
      match listElems junk fuel rt.1 rl.1.toNat rl.2 with
      | .error e => .error e
      | .ok r => .ok (.listN name rt.1 r.1, r.2)

/-- The element loop of `TagList::decode`. -/
def listElems (junk : Junk) : Nat → Nat → Nat → Stm →
    Except Err (List Node × Stm)
  | 0, _, _, _ => .error .fuel
  | _ + 1, _, 0, s => .ok ([], s)
  | fuel + 1, et, n + 1, s =>
    match makeTag junk fuel et none s with
    | .error e => .error e
    | .ok r =>
      match listElems junk fuel et n r.2 with
      | .error e => .error e
      | .ok r2 => .ok (r.1 :: r2.1, r2.2)

/-- `TagCompound::decode` (`nbt.hpp` lines 364-370). -/
def decodeCompound (junk : Junk) : Nat → Option (List Nat) → Stm →
    Except Err (Node × Stm)
  | 0, _, _ => .error .fuel
  | fuel + 1, name, s =>
    match compoundLoop junk fuel [] s with
    | .error e => .error e
    | .ok r => .ok (.compoundN name r.1, r.2)

/-- The loop of `TagCompound::decode`: read a tag type; stop at `TAG_END`;
otherwise read a name, decode the keyed child through `makeTag`, and insert
it into the map. -/
def compoundLoop (junk : Junk) : Nat → List (List Nat × Node) → Stm →
    Except Err (List (List Nat × Node) × Stm)
  | 0, _, _ => .error .fuel
  | fuel + 1, acc, s =>
    let rt := readStreamTagType junk s
    if rt.1 = 0 then .ok (acc, rt.2)
    else
      let rn := readStreamString junk rt.2
      match makeTag junk fuel rt.1 (some rn.1) rn.2 with
      | .error e => .error e
      | .ok rc => compoundLoop junk fuel (insertNew acc rn.1 rc.1) rc.2

end

/-- `readDocument` (`nbt.hpp` lines 381-390): read one tag type, throw
unless it is `TAG_COMPOUND` (id 10), then read the root name and delegate to
`makeTag`. -/
def readDocument (junk : Junk) (fuel : Nat) (s : Stm) :
    Except Err (Node × Stm) :=
  let rt := readStreamTagType junk s
  if rt.1 ≠ 10 then .error .notCompound
  else
    let rn := readStreamString junk rt.2
    makeTag junk fuel rt.1 (some rn.1) rn.2

/-- Name placement in a decoded tree: every entry of a compound payload maps
a key to a child whose name is exactly that key, and every element of a list
payload is unnamed, recursively at every depth. -/
inductive GoodTree : Node → Prop where
  | byteG : ∀ n v, GoodTree (.byteN n v)
  | shortG : ∀ n v, GoodTree (.shortN n v)
  | intG : ∀ n v, GoodTree (.intN n v)
  | longG : ∀ n v, GoodTree (.longN n v)
  | floatG : ∀ n v, GoodTree (.floatN n v)
  | doubleG : ∀ n v, GoodTree (.doubleN n v)
  | byteArrG : ∀ n vs, GoodTree (.byteArrN n vs)
  | strG : ∀ n bs, GoodTree (.strN n bs)
  | intArrG : ∀ n vs, GoodTree (.intArrN n vs)
  | longArrG : ∀ n vs, GoodTree (.longArrN n vs)
  | listG : ∀ n et es, (∀ e ∈ es, Node.nameOf e = none) →
      (∀ e ∈ es, GoodTree e) → GoodTree (.listN n et es)
  | compG : ∀ n ents, (∀ p ∈ ents, Node.nameOf p.2 = some p.1) →
      (∀ p ∈ ents, GoodTree p.2) → GoodTree (.compoundN n ents)

/-- Reference big-endian encoder for a `w`-byte unsigned value — the
external oracle named by the spec's round-trip property, written from the
spec's words ("all multi-byte numerics are big-endian"). -/
def encBE : Nat → Nat → List Nat
  | 0, _ => []
  | w + 1, v => encBE w (v / 256) ++ [v % 256]

/-- Reference encoder for a text value: `uint16` big-endian length then the
raw bytes (spec: "Text: `uint16 length` followed by `length` raw bytes"). -/
def encText (bs : List Nat) : List Nat :=
  encBE 2 bs.length ++ bs

/-- The all-zero indeterminate-memory oracle, used for concrete runs. -/
def jzero : Junk := fun _ => 0

/-- Tag-type id of a successful decode result (0 for an error). -/
def resTy : Except Err (Node × Stm) → Nat
  | .ok (t, _) => t.typeId
  | .error _ => 0

/-! ## Basic stream lemmas -/

theorem readBytesC_data (junk : Junk) (n : Nat) (s : Stm) :
    (readBytesC junk n s).2.data = s.data := by
  unfold readBytesC
  split
  · rfl
  · dsimp only
    split <;> rfl

theorem readBytesC_pos_le (junk : Junk) (n : Nat) (s : Stm) :
    (readBytesC junk n s).2.pos ≤ s.pos + n := by
  unfold readBytesC
  split
  · exact Nat.le_add_right _ _
  · dsimp only
    split
    · exact Nat.le_refl _
    · next h => simp only; omega

theorem readBytesC_sticky (junk : Junk) (n : Nat) (s : Stm)
    (h : s.fail = true) :
    (readBytesC junk n s).2 = { s with junkPos := s.junkPos + n } := by
  simp [readBytesC, h]

theorem readBytesC_of_avail (junk : Junk) (n : Nat) (s : Stm)
    (hf : s.fail = false) (h : n ≤ s.data.length - s.pos) :
    (readBytesC junk n s).2 = { s with pos := s.pos + n } := by
  simp [readBytesC, hf, h]

theorem readBytesC_short (junk : Junk) (n : Nat) (s : Stm)
    (hf : s.fail = false) (h : s.data.length - s.pos < n) :
    (readBytesC junk n s).2.fail = true := by
  simp [readBytesC, hf, Nat.not_le.mpr h]

theorem readStreamInt_snd (junk : Junk) (nb : Nat) (s : Stm) :
    (readStreamInt junk nb s).2 = (readBytesC junk nb s).2 := rfl

theorem readStreamTagType_snd (junk : Junk) (s : Stm) :
    (readStreamTagType junk s).2 = (readBytesC junk 1 s).2 := rfl

/-! ## Lemmas about the array-element loop -/

theorem readElems_length (junk : Junk) (nb : Nat) :
    ∀ (n : Nat) (s : Stm), (readElems junk nb n s).1.length = n := by
  intro n
  induction n with
  | zero => intro s; rfl
  | succ m ih => intro s; simp [readElems, ih]

theorem readElems_sticky (junk : Junk) (nb : Nat) :
    ∀ (n : Nat) (s : Stm), s.fail = true →
      (readElems junk nb n s).2.fail = true := by
  intro n
  induction n with
  | zero => intro s h; exact h
  | succ m ih =>
    intro s h
    show (readElems junk nb m (readStreamInt junk nb s).2).2.fail = true
    apply ih
    rw [readStreamInt_snd, readBytesC_sticky junk nb s h]
    exact h

theorem readElems_fail (junk : Junk) (nb : Nat) (hnb : 0 < nb) :
    ∀ (n : Nat) (s : Stm), 0 < n → s.fail = false →
      s.data.length < s.pos + n * nb →
      (readElems junk nb n s).2.fail = true := by
  intro n
  induction n with
  | zero => intro s h; omega
  | succ m ih =>
    intro s _ hf hlen
    show (readElems junk nb m (readStreamInt junk nb s).2).2.fail = true
    by_cases hav : nb ≤ s.data.length - s.pos
    · have hst : (readStreamInt junk nb s).2 = { s with pos := s.pos + nb } := by
        rw [readStreamInt_snd]
        exact readBytesC_of_avail junk nb s hf hav
      rw [hst]
      cases m with
      | zero => omega
      | succ k =>
        apply ih
        · omega
        · exact hf
        · have hmul : (k + 1 + 1) * nb = (k + 1) * nb + nb := by ring
          show s.data.length < s.pos + nb + (k + 1) * nb
          omega
    · apply readElems_sticky
      rw [readStreamInt_snd]
      exact readBytesC_short junk nb s hf (by omega)

/-! ## Shape lemmas for the container decoders -/

theorem insertNew_mem {m : List (List Nat × Node)} {k : List Nat} {v : Node}
    {p : List Nat × Node} (h : p ∈ insertNew m k v) : p ∈ m ∨ p = (k, v) := by
  unfold insertNew at h
  split at h
  · exact .inl h
  · rcases List.mem_append.mp h with h1 | h1
    · exact .inl h1
    · exact .inr (List.mem_singleton.mp h1)

theorem decodeCompound_shape (junk : Junk) (f : Nat) (name : Option (List Nat))
    (s : Stm) (t : Node) (s2 : Stm)
    (h : decodeCompound junk f name s = .ok (t, s2)) :
    t.nameOf = name ∧ t.typeId = 10 := by
  cases f with
  | zero => simp [decodeCompound] at h
  | succ f =>
    simp only [decodeCompound] at h
    split at h
    · exact absurd h (by simp)
    · injection h with h1
      injection h1 with h2 h3
      subst h2
      exact ⟨rfl, rfl⟩

theorem decodeList_shape (junk : Junk) (f : Nat) (name : Option (List Nat))
    (s : Stm) (t : Node) (s2 : Stm)
    (h : decodeList junk f name s = .ok (t, s2)) :
    t.nameOf = name ∧ t.typeId = 9 := by
  cases f with
  | zero => simp [decodeList] at h
  | succ f =>
    simp only [decodeList] at h
    split at h
    · exact absurd h (by simp)
    · split at h
      · exact absurd h (by simp)
      · injection h with h1
        injection h1 with h2 h3
        subst h2
        exact ⟨rfl, rfl⟩

theorem makeTag_compound_shape (junk : Junk) (f : Nat)
    (name : Option (List Nat)) (s : Stm) (t : Node) (s2 : Stm)
    (h : makeTag junk f 10 name s = .ok (t, s2)) :
    t.nameOf = name ∧ t.typeId = 10 := by
  cases f with
  | zero => simp [makeTag] at h
  | succ f => exact decodeCompound_shape junk f name s t s2 h

/-! ## The name-placement invariant of the recursive decode -/

theorem goodPack (junk : Junk) : ∀ f : Nat,
    (∀ ty name s t s2, makeTag junk f ty name s = .ok (t, s2) →
      t.nameOf = name ∧ GoodTree t) ∧
    (∀ name s t s2, decodeList junk f name s = .ok (t, s2) →
      t.nameOf = name ∧ GoodTree t) ∧
    (∀ et n s ts s2, listElems junk f et n s = .ok (ts, s2) →
      ∀ e ∈ ts, e.nameOf = none ∧ GoodTree e) ∧
    (∀ name s t s2, decodeCompound junk f name s = .ok (t, s2) →
      t.nameOf = name ∧ GoodTree t) ∧
    (∀ acc s ents s2, compoundLoop junk f acc s = .ok (ents, s2) →
      (∀ p ∈ acc, Node.nameOf p.2 = some p.1 ∧ GoodTree p.2) →
      ∀ p ∈ ents, Node.nameOf p.2 = some p.1 ∧ GoodTree p.2) := by
  intro f
  induction f with
  | zero =>
    refine ⟨?_, ?_, ?_, ?_, ?_⟩
    · intro ty name s t s2 h; exact absurd h (by simp [makeTag])
    · intro name s t s2 h; exact absurd h (by simp [decodeList])
    · intro et n s ts s2 h; exact absurd h (by simp [listElems])
    · intro name s t s2 h; exact absurd h (by simp [decodeCompound])
    · intro acc s ents s2 h; exact absurd h (by simp [compoundLoop])
  | succ f ih =>
    obtain ⟨ihM, ihL, ihE, ihC, ihP⟩ := ih
    have stepL : ∀ name s t s2, decodeList junk (f + 1) name s = .ok (t, s2) →
        t.nameOf = name ∧ GoodTree t := by
      intro name s t s2 h
      simp only [decodeList] at h
      split at h
      · exact absurd h (by simp)
      · split at h
        · exact absurd h (by simp)
        · next r heq =>
          injection h with h1
          injection h1 with h2 h3
          subst h2
          refine ⟨rfl, GoodTree.listG _ _ _ ?_ ?_⟩
          · intro e he; exact (ihE _ _ _ _ _ heq e he).1
          · intro e he; exact (ihE _ _ _ _ _ heq e he).2
    have stepP : ∀ acc s ents s2,
        compoundLoop junk (f + 1) acc s = .ok (ents, s2) →
        (∀ p ∈ acc, Node.nameOf p.2 = some p.1 ∧ GoodTree p.2) →
        ∀ p ∈ ents, Node.nameOf p.2 = some p.1 ∧ GoodTree p.2 := by
      intro acc s ents s2 h hacc
      simp only [compoundLoop] at h
      split at h
      · injection h with h1
        injection h1 with h2 h3
        subst h2
        exact hacc
      · split at h
        · exact absurd h (by simp)
        · next rc heq =>
          refine ihP _ _ _ _ h ?_
          intro p hp
          rcases insertNew_mem hp with hin | hpe
          · exact hacc p hin
          · subst hpe
            have := ihM _ _ _ _ _ heq
            exact ⟨this.1, this.2⟩
    have stepC : ∀ name s t s2,
        decodeCompound junk (f + 1) name s = .ok (t, s2) →
        t.nameOf = name ∧ GoodTree t := by
      intro name s t s2 h
      simp only [decodeCompound] at h
      split at h
      · exact absurd h (by simp)
      · next r heq =>
        injection h with h1
        injection h1 with h2 h3
        subst h2
        have hents := ihP _ _ _ _ heq (by intro p hp; exact absurd hp (List.not_mem_nil p))
        refine ⟨rfl, GoodTree.compG _ _ ?_ ?_⟩
        · intro p hp; exact (hents p hp).1
        · intro p hp; exact (hents p hp).2
    refine ⟨?_, stepL, ?_, stepC, stepP⟩
    · intro ty name s t s2 h
      simp only [makeTag] at h
      split at h
      · exact absurd h (by simp)
      · injection h with h1; injection h1 with h2 h3; subst h2
        exact ⟨rfl, GoodTree.byteG _ _⟩
      · injection h with h1; injection h1 with h2 h3; subst h2
        exact ⟨rfl, GoodTree.shortG _ _⟩
      · injection h with h1; injection h1 with h2 h3; subst h2
        exact ⟨rfl, GoodTree.intG _ _⟩
      · injection h with h1; injection h1 with h2 h3; subst h2
        exact ⟨rfl, GoodTree.longG _ _⟩
      · injection h with h1; injection h1 with h2 h3; subst h2
        exact ⟨rfl, GoodTree.floatG _ _⟩
      · injection h with h1; injection h1 with h2 h3; subst h2
        exact ⟨rfl, GoodTree.doubleG _ _⟩
      · injection h with h1; injection h1 with h2 h3; subst h2
        exact ⟨rfl, GoodTree.byteArrG _ _⟩
      · injection h with h1; injection h1 with h2 h3; subst h2
        exact ⟨rfl, GoodTree.strG _ _⟩
      · exact ihL _ _ _ _ h
      · exact ihC _ _ _ _ h
      · injection h with h1; injection h1 with h2 h3; subst h2
        exact ⟨rfl, GoodTree.intArrG _ _⟩
      · injection h with h1; injection h1 with h2 h3; subst h2
        exact ⟨rfl, GoodTree.longArrG _ _⟩
      · exact absurd h (by simp)
    · intro et n s ts s2 h
      cases n with
      | zero =>
        simp only [listElems] at h
        injection h with h1
        injection h1 with h2 h3
        subst h2
        intro e he
        exact absurd he (List.not_mem_nil e)
      | succ m =>
        simp only [listElems] at h
        split at h
        · exact absurd h (by simp)
        · next r heq1 =>
          split at h
          · exact absurd h (by simp)
          · next r2 heq2 =>
            injection h with h1
            injection h1 with h2 h3
            subst h2
            intro e he
            rcases List.mem_cons.mp he with rfl | he2
            · have := ihM _ _ _ _ _ heq1
              exact ⟨this.1, this.2⟩
            · exact ihE _ _ _ _ _ heq2 e he2

/-! ## Claim theorems -/

/-- C1, counterexample: decoding a BYTE_ARRAY that declares 5 elements from a
stream holding only 2 element bytes does not fail — it returns a node whose
payload has 5 entries (the 2 wire bytes followed by indeterminate bytes,
here the all-zero oracle), with the stream left in the fail state.  This
refutes "the decode fails fatally ... and no partially decoded node is
returned to the caller". -/
theorem truncated_byte_array_yields_node :
    makeTag jzero 3 7 none ⟨[0, 0, 0, 5, 65, 66], 0, false, 0⟩ =
      .ok (.byteArrN none [65, 66, 0, 0, 0],
        ⟨[0, 0, 0, 5, 65, 66], 6, true, 3⟩) := rfl

/-- C1, amended: on truncated input no failure is raised and no exception
propagates: a BYTE_ARRAY whose declared length `L` exceeds the bytes left in
the stream still decodes to `.ok` with a payload of exactly `L` elements
(wire bytes then indeterminate bytes), and the stream is left in the fail
state — for every indeterminate-memory oracle. -/
theorem truncated_array_decode_returns_declared_length
    (junk : Junk) (fuel : Nat) (name : Option (List Nat)) (s : Stm)
    (L : Nat) (s1 : Stm) (h : readStreamNat junk 4 s = (L, s1)) (hL : 0 < L)
    (hf : s1.fail = false) (hshort : s1.data.length < s1.pos + L) :
    makeTag junk (fuel + 1) 7 name s =
        .ok (.byteArrN name (readElems junk 1 L s1).1,
          (readElems junk 1 L s1).2) ∧
      (readElems junk 1 L s1).1.length = L ∧
      (readElems junk 1 L s1).2.fail = true := by
  have harr : decodeArray junk 1 s = readElems junk 1 L s1 := by
    unfold decodeArray
    rw [h]
    show (if L ≤ 0 then (([] : List Int), s1) else readElems junk 1 L s1) = _
    rw [if_neg (by omega)]
  have hmk : makeTag junk (fuel + 1) 7 name s =
      .ok (.byteArrN name (decodeArray junk 1 s).1,
        (decodeArray junk 1 s).2) := rfl
  refine ⟨?_, readElems_length junk 1 L s1,
    readElems_fail junk 1 (by omega) L s1 hL hf (by omega)⟩
  rw [hmk, harr]

theorem truncated_array_decode_returns_declared_length_witness :
    makeTag jzero 3 7 none ⟨[0, 0, 0, 3, 7], 0, false, 0⟩ =
        .ok (.byteArrN none
            (readElems jzero 1 3 ⟨[0, 0, 0, 3, 7], 4, false, 0⟩).1,
          (readElems jzero 1 3 ⟨[0, 0, 0, 3, 7], 4, false, 0⟩).2) ∧
      (readElems jzero 1 3 ⟨[0, 0, 0, 3, 7], 4, false, 0⟩).1.length = 3 ∧
      (readElems jzero 1 3 ⟨[0, 0, 0, 3, 7], 4, false, 0⟩).2.fail = true :=
  truncated_array_decode_returns_declared_length jzero 2 none
    ⟨[0, 0, 0, 3, 7], 0, false, 0⟩ 3 ⟨[0, 0, 0, 3, 7], 4, false, 0⟩ rfl
    (by decide) rfl (by decide)

/-- C2: `readStream<std::string>` on the wire bytes `00 01 41` (declared
length 1, payload byte 65) returns a TWO-byte text `[65, 0]` — the payload
plus the trailing zero byte of the `len + 1` vector — not the one-byte text
the declared length promises. -/
theorem string_read_appends_trailing_zero_byte :
    readStreamString jzero ⟨[0, 1, 65], 0, false, 0⟩ =
        ([65, 0], ⟨[0, 1, 65], 3, false, 0⟩) ∧
      ([65, 0] : List Nat) ≠ [65] :=
  ⟨rfl, by decide⟩

/-- C3: `TagArray::decode` reads its length with `readStream<uint32_t>`, so
the wire int32 `-1` (bytes `FF FF FF FF`) is not "empty": the guard
`len <= 0` on the unsigned value only catches 0, and the decoder attempts
to read 4294967295 elements. -/
theorem negative_array_length_read_as_unsigned :
    (decodeArray jzero 1 ⟨[255, 255, 255, 255], 0, false, 0⟩).1.length =
      4294967295 := by
  have h : decodeArray jzero 1 ⟨[255, 255, 255, 255], 0, false, 0⟩ =
      readElems jzero 1 4294967295 ⟨[255, 255, 255, 255], 4, false, 0⟩ := rfl
  rw [h]
  exact readElems_length jzero 1 4294967295 _

/-- C4, counterexample: `readStream<TagType>` on the byte 13 returns the
out-of-range discriminant 13 with the stream intact and no failure; the
"unknown tag type" error is only raised later, by `makeTag`, after the
compound loop has already consumed the child's name. -/
theorem tag_type_read_accepts_unknown_byte :
    readStreamTagType jzero ⟨[13], 0, false, 0⟩ = (13, ⟨[13], 1, false, 0⟩) ∧
      decodeCompound jzero 5 none ⟨[13, 0, 1, 120], 0, false, 0⟩ =
        .error (.makeUnknown 13) :=
  ⟨rfl, rfl⟩

/-- C4, amended: the tag-type read performs no validation — it returns the
raw byte for every value — and for every id 13-255 (indeed every id ≥ 13)
the "unknown tag type" failure is raised by the dispatcher `makeTag` when
asked to construct that id, not by the read itself. -/
theorem unknown_tag_type_fails_in_dispatcher (junk : Junk) (fuel ty b : Nat)
    (name : Option (List Nat)) (s : Stm) (h13 : 13 ≤ ty) :
    makeTag junk (fuel + 1) ty name s = .error (.makeUnknown ty) ∧
      readStreamTagType junk ⟨[b], 0, false, 0⟩ =
        (b % 256, ⟨[b], 1, false, 0⟩) := by
  constructor
  · obtain ⟨k, rfl⟩ : ∃ k, ty = k + 13 := ⟨ty - 13, by omega⟩
    rfl
  · simp [readStreamTagType, readStreamNat, readBytesC, beVal]

theorem unknown_tag_type_fails_in_dispatcher_witness :
    makeTag jzero 1 13 none ⟨[], 0, false, 0⟩ = .error (.makeUnknown 13) ∧
      readStreamTagType jzero ⟨[200], 0, false, 0⟩ =
        (200, ⟨[200], 1, false, 0⟩) := by
  have h := unknown_tag_type_fails_in_dispatcher jzero 0 13 200 none
    ⟨[], 0, false, 0⟩ (by omega)
  exact ⟨h.1, h.2⟩

/-- C5: `TagList::decode` reads the element type, then a signed `int32_t`
length `L`; for every `L ≤ 0` it throws the "not implement for variant
length list" error instead of producing an empty list — while
`TagArray::decode` with declared length 0 yields the empty payload (the
asymmetry between the two policies). -/
theorem list_nonpositive_length_fatal (junk : Junk) (fuel : Nat)
    (name : Option (List Nat)) (s : Stm) (et : Nat) (s1 : Stm) (L : Int)
    (s2 : Stm) (w : Nat) (t t1 : Stm)
    (h1 : readStreamTagType junk s = (et, s1))
    (h2 : readStreamInt junk 4 s1 = (L, s2)) (hL : L ≤ 0) :
    decodeList junk (fuel + 1) name s = .error .listLen ∧
      (readStreamNat junk 4 t = (0, t1) → decodeArray junk w t = ([], t1)) := by
  constructor
  · simp [decodeList, h1, h2, hL]
  · intro h
    simp [decodeArray, h]

theorem list_nonpositive_length_fatal_witness :
    decodeList jzero 1 none ⟨[1, 0, 0, 0, 0], 0, false, 0⟩ =
        .error .listLen ∧
      decodeArray jzero 1 ⟨[0, 0, 0, 0], 0, false, 0⟩ =
        ([], ⟨[0, 0, 0, 0], 4, false, 0⟩) := by
  have h := list_nonpositive_length_fatal jzero 0 none
    ⟨[1, 0, 0, 0, 0], 0, false, 0⟩ 1 ⟨[1, 0, 0, 0, 0], 1, false, 0⟩ 0
    ⟨[1, 0, 0, 0, 0], 5, false, 0⟩ 1 ⟨[0, 0, 0, 0], 0, false, 0⟩
    ⟨[0, 0, 0, 0], 4, false, 0⟩ rfl rfl (by omega)
  exact ⟨h.1, h.2 rfl⟩

/-- C6: `readDocument` fails with the "document should be a named compound"
error whenever the first tag-type byte is not COMPOUND (id 10), having
consumed at most that one byte; when it is 10, it reads the root name and
returns exactly the decoded compound root, which carries that name. -/
theorem read_document_root_check (junk : Junk) (fuel : Nat) (s : Stm)
    (ty : Nat) (s1 : Stm) (h1 : readStreamTagType junk s = (ty, s1)) :
    (ty ≠ 10 → readDocument junk fuel s = .error .notCompound ∧
      s1.pos ≤ s.pos + 1) ∧
    (∀ nm s2 t s3, ty = 10 → readStreamString junk s1 = (nm, s2) →
      makeTag junk fuel ty (some nm) s2 = .ok (t, s3) →
      readDocument junk fuel s = .ok (t, s3) ∧ t.nameOf = some nm ∧
        t.typeId = 10) := by
  constructor
  · intro hne
    refine ⟨by simp [readDocument, h1, hne], ?_⟩
    have hs1 : s1 = (readBytesC junk 1 s).2 := (congrArg Prod.snd h1).symm
    rw [hs1]
    exact readBytesC_pos_le junk 1 s
  · intro nm s2 t s3 hty h2 h3
    subst hty
    have hdoc : readDocument junk fuel s = makeTag junk fuel 10 (some nm) s2 := by
      simp [readDocument, h1, h2]
    have hshape := makeTag_compound_shape junk fuel (some nm) s2 t s3 h3
    rw [hdoc, h3]
    exact ⟨rfl, hshape.1, hshape.2⟩

theorem read_document_root_check_witness :
    readDocument jzero 5 ⟨[10, 0, 1, 120, 0], 0, false, 0⟩ =
        .ok (.compoundN (some [120, 0]) [],
          ⟨[10, 0, 1, 120, 0], 5, false, 0⟩) ∧
      Node.nameOf (.compoundN (some [120, 0]) []) = some [120, 0] ∧
      Node.typeId (.compoundN (some [120, 0]) []) = 10 :=
  (read_document_root_check jzero 5 ⟨[10, 0, 1, 120, 0], 0, false, 0⟩ 10
      ⟨[10, 0, 1, 120, 0], 1, false, 0⟩ rfl).2 [120, 0]
    ⟨[10, 0, 1, 120, 0], 4, false, 0⟩ (.compoundN (some [120, 0]) [])
    ⟨[10, 0, 1, 120, 0], 5, false, 0⟩ rfl rfl rfl

/-- C7: the dispatcher `makeTag` throws `std::invalid_argument` when asked
to construct END (id 0), throws the "not found" error for every id outside
the 13 known discriminants, and for each constructible id 1-12 every node it
returns has exactly the requested tag type. -/
theorem make_tag_dispatch (junk : Junk) (fuel tyU tyK : Nat)
    (name : Option (List Nat)) (s : Stm) :
    makeTag junk (fuel + 1) 0 name s = .error .makeEnd ∧
      (13 ≤ tyU → makeTag junk (fuel + 1) tyU name s =
        .error (.makeUnknown tyU)) ∧
      (1 ≤ tyK → tyK ≤ 12 → ∀ t s2,
        makeTag junk (fuel + 1) tyK name s = .ok (t, s2) →
          t.typeId = tyK) := by
  refine ⟨rfl, ?_, ?_⟩
  · intro h
    obtain ⟨k, rfl⟩ : ∃ k, tyU = k + 13 := ⟨tyU - 13, by omega⟩
    rfl
  · intro h1 h2 t s2 h
    interval_cases tyK
    · exact (congrArg resTy h).symm
    · exact (congrArg resTy h).symm
    · exact (congrArg resTy h).symm
    · exact (congrArg resTy h).symm
    · exact (congrArg resTy h).symm
    · exact (congrArg resTy h).symm
    · exact (congrArg resTy h).symm
    · exact (congrArg resTy h).symm
    · have h9 : makeTag junk (fuel + 1) 9 name s =
          decodeList junk fuel name s := rfl
      rw [h9] at h
      exact (decodeList_shape junk fuel name s t s2 h).2
    · have h10 : makeTag junk (fuel + 1) 10 name s =
          decodeCompound junk fuel name s := rfl
      rw [h10] at h
      exact (decodeCompound_shape junk fuel name s t s2 h).2
    · exact (congrArg resTy h).symm
    · exact (congrArg resTy h).symm

theorem make_tag_dispatch_witness :
    makeTag jzero 1 0 none ⟨[7], 0, false, 0⟩ = .error .makeEnd ∧
      makeTag jzero 1 13 none ⟨[7], 0, false, 0⟩ =
        .error (.makeUnknown 13) ∧
      Node.typeId (.byteN none 7) = 1 := by
  have h := make_tag_dispatch jzero 0 13 1 none ⟨[7], 0, false, 0⟩
  exact ⟨h.1, h.2.1 (by omega),
    h.2.2 (by omega) (by omega) (.byteN none 7) ⟨[7], 1, false, 0⟩ rfl⟩

/-- C8: decoding the reference big-endian encoding of the text value `[65]`
("A") yields `[65, 0]`, not `[65]` — the round-trip identity fails for the
text type (the numeric types are unaffected; the failure is the trailing
zero byte appended by `readStream<std::string>`). -/
theorem string_round_trip_fails :
    readStreamString jzero ⟨encText [65], 0, false, 0⟩ =
        ([65, 0], ⟨encText [65], 3, false, 0⟩) ∧
      ([65, 0] : List Nat) ≠ [65] :=
  ⟨rfl, by decide⟩

/-- C9: every successful `readDocument` returns a root that carries exactly
the name read from the wire, and in the whole decoded tree every compound
entry's child carries the entry's key as its name while every list element
is unnamed, at every depth (`GoodTree`). -/
theorem decoded_tree_name_placement (junk : Junk) (fuel : Nat) (s : Stm)
    (ty : Nat) (s1 : Stm) (nm : List Nat) (s2 : Stm) (t : Node) (s3 : Stm)
    (h1 : readStreamTagType junk s = (ty, s1))
    (h2 : readStreamString junk s1 = (nm, s2))
    (h3 : readDocument junk fuel s = .ok (t, s3)) :
    t.nameOf = some nm ∧ GoodTree t := by
  by_cases hty : ty = 10
  · subst hty
    have hdoc : readDocument junk fuel s =
        makeTag junk fuel 10 (some nm) s2 := by
      simp [readDocument, h1, h2]
    rw [hdoc] at h3
    exact (goodPack junk fuel).1 _ _ _ _ _ h3
  · have hdoc : readDocument junk fuel s = .error .notCompound := by
      simp [readDocument, h1, hty]
    rw [hdoc] at h3
    exact absurd h3 (by simp)

theorem decoded_tree_name_placement_witness :
    readDocument jzero 9 ⟨[10, 0, 1, 120, 1, 0, 1, 121, 7, 0], 0, false, 0⟩ =
        .ok (.compoundN (some [120, 0])
            [([121, 0], .byteN (some [121, 0]) 7)],
          ⟨[10, 0, 1, 120, 1, 0, 1, 121, 7, 0], 10, false, 0⟩) ∧
      Node.nameOf
          (.compoundN (some [120, 0])
            [([121, 0], .byteN (some [121, 0]) 7)]) = some [120, 0] ∧
      GoodTree (.compoundN (some [120, 0])
        [([121, 0], .byteN (some [121, 0]) 7)]) := by
  have h := decoded_tree_name_placement jzero 9
    ⟨[10, 0, 1, 120, 1, 0, 1, 121, 7, 0], 0, false, 0⟩ 10
    ⟨[10, 0, 1, 120, 1, 0, 1, 121, 7, 0], 1, false, 0⟩ [120, 0]
    ⟨[10, 0, 1, 120, 1, 0, 1, 121, 7, 0], 4, false, 0⟩
    (.compoundN (some [120, 0]) [([121, 0], .byteN (some [121, 0]) 7)])
    ⟨[10, 0, 1, 120, 1, 0, 1, 121, 7, 0], 10, false, 0⟩ rfl rfl rfl
  exact ⟨rfl, h.1, h.2⟩

/-! ## Step lemmas for the compound loop, and the duplicate-key behaviour -/

theorem readBytesC_avail_eq (junk : Junk) (n : Nat) (s : Stm)
    (hf : s.fail = false) (h : n ≤ s.data.length - s.pos) :
    readBytesC junk n s =
      ((s.data.drop s.pos).take n, { s with pos := s.pos + n }) := by
  simp [readBytesC, hf, h]

theorem readStreamNat_avail (junk : Junk) (nb : Nat) (s : Stm)
    (hf : s.fail = false) (h : nb ≤ s.data.length - s.pos) :
    readStreamNat junk nb s =
      (beVal ((s.data.drop s.pos).take nb), { s with pos := s.pos + nb }) := by
  unfold readStreamNat
  rw [readBytesC_avail_eq junk nb s hf h]

theorem makeTag_byte (junk : Junk) (f : Nat) (name : Option (List Nat))
    (s : Stm) (v : Int) (s2 : Stm) (h : readStreamInt junk 1 s = (v, s2)) :
    makeTag junk (f + 1) 1 name s = .ok (.byteN name v, s2) := by
  have hr : makeTag junk (f + 1) 1 name s =
      .ok (.byteN name (readStreamInt junk 1 s).1,
        (readStreamInt junk 1 s).2) := rfl
  rw [hr, h]

theorem compoundLoop_end (junk : Junk) (f : Nat)
    (acc : List (List Nat × Node)) (s s1 : Stm)
    (h : readStreamTagType junk s = (0, s1)) :
    compoundLoop junk (f + 1) acc s = .ok (acc, s1) := by
  simp [compoundLoop, h]

theorem compoundLoop_step (junk : Junk) (f : Nat)
    (acc : List (List Nat × Node)) (s : Stm) (ty : Nat) (s1 : Stm)
    (nm : List Nat) (s2 : Stm) (c : Node) (s3 : Stm)
    (h1 : readStreamTagType junk s = (ty, s1)) (hne : ty ≠ 0)
    (h2 : readStreamString junk s1 = (nm, s2))
    (h3 : makeTag junk f ty (some nm) s2 = .ok (c, s3)) :
    compoundLoop junk (f + 1) acc s =
      compoundLoop junk f (insertNew acc nm c) s3 := by
  simp [compoundLoop, h1, hne, h2, h3]

theorem decodeCompound_ok (junk : Junk) (f : Nat) (name : Option (List Nat))
    (s : Stm) (ents : List (List Nat × Node)) (s2 : Stm)
    (h : compoundLoop junk f [] s = .ok (ents, s2)) :
    decodeCompound junk (f + 1) name s = .ok (.compoundN name ents, s2) := by
  simp [decodeCompound, h]

/-- C10: a compound whose wire stream holds two keyed BYTE children with the
same name `"x"` (payload bytes `b1` then `b2`) decodes without failing: the
second child's payload bytes are still consumed (the final position, 11,
is past the whole body), but the name → node mapping keeps the first child
(`std::unordered_map::insert` never overwrites), and the loop runs on to the
END marker. -/
theorem duplicate_compound_keys_first_wins (junk : Junk) (b1 b2 : Nat)
    (hb1 : b1 < 256) (hb2 : b2 < 256) :
    decodeCompound junk 9 none
        ⟨[1, 0, 1, 120, b1, 1, 0, 1, 120, b2, 0], 0, false, 0⟩ =
      .ok (.compoundN none
          [([120, 0], .byteN (some [120, 0]) (toSigned 8 b1))],
        ⟨[1, 0, 1, 120, b1, 1, 0, 1, 120, b2, 0], 11, false, 0⟩) := by
  have r1 : readStreamTagType junk
      ⟨[1, 0, 1, 120, b1, 1, 0, 1, 120, b2, 0], 0, false, 0⟩ =
      (1, ⟨[1, 0, 1, 120, b1, 1, 0, 1, 120, b2, 0], 1, false, 0⟩) := by
    rw [readStreamTagType, readStreamNat_avail junk 1 _ rfl (by simp)]
    simp [beVal]
  have r2 : readStreamString junk
      ⟨[1, 0, 1, 120, b1, 1, 0, 1, 120, b2, 0], 1, false, 0⟩ =
      ([120, 0], ⟨[1, 0, 1, 120, b1, 1, 0, 1, 120, b2, 0], 4, false, 0⟩) := by
    unfold readStreamString
    rw [readStreamNat_avail junk 2 _ rfl (by simp)]
    simp [beVal]
  have r3 : readStreamInt junk 1
      ⟨[1, 0, 1, 120, b1, 1, 0, 1, 120, b2, 0], 4, false, 0⟩ =
      (toSigned 8 b1,
        ⟨[1, 0, 1, 120, b1, 1, 0, 1, 120, b2, 0], 5, false, 0⟩) := by
    unfold readStreamInt
    rw [readStreamNat_avail junk 1 _ rfl (by simp)]
    simp [beVal, Nat.mod_eq_of_lt hb1]
  have r4 : readStreamTagType junk
      ⟨[1, 0, 1, 120, b1, 1, 0, 1, 120, b2, 0], 5, false, 0⟩ =
      (1, ⟨[1, 0, 1, 120, b1, 1, 0, 1, 120, b2, 0], 6, false, 0⟩) := by
    rw [readStreamTagType, readStreamNat_avail junk 1 _ rfl (by simp)]
    simp [beVal]
  have r5 : readStreamString junk
      ⟨[1, 0, 1, 120, b1, 1, 0, 1, 120, b2, 0], 6, false, 0⟩ =
      ([120, 0], ⟨[1, 0, 1, 120, b1, 1, 0, 1, 120, b2, 0], 9, false, 0⟩) := by
    unfold readStreamString
    rw [readStreamNat_avail junk 2 _ rfl (by simp)]
    simp [beVal]
  have r6 : readStreamInt junk 1
      ⟨[1, 0, 1, 120, b1, 1, 0, 1, 120, b2, 0], 9, false, 0⟩ =
      (toSigned 8 b2,
        ⟨[1, 0, 1, 120, b1, 1, 0, 1, 120, b2, 0], 10, false, 0⟩) := by
    unfold readStreamInt
    rw [readStreamNat_avail junk 1 _ rfl (by simp)]
    simp [beVal, Nat.mod_eq_of_lt hb2]
  have r7 : readStreamTagType junk
      ⟨[1, 0, 1, 120, b1, 1, 0, 1, 120, b2, 0], 10, false, 0⟩ =
      (0, ⟨[1, 0, 1, 120, b1, 1, 0, 1, 120, b2, 0], 11, false, 0⟩) := by
    rw [readStreamTagType, readStreamNat_avail junk 1 _ rfl (by simp)]
    simp [beVal]
  have m1 := makeTag_byte junk 6 (some [120, 0]) _ _ _ r3
  have m2 := makeTag_byte junk 5 (some [120, 0]) _ _ _ r6
  have step1 : compoundLoop junk 8 []
      ⟨[1, 0, 1, 120, b1, 1, 0, 1, 120, b2, 0], 0, false, 0⟩ =
      compoundLoop junk 7
        (insertNew [] [120, 0] (.byteN (some [120, 0]) (toSigned 8 b1)))
        ⟨[1, 0, 1, 120, b1, 1, 0, 1, 120, b2, 0], 5, false, 0⟩ :=
    compoundLoop_step junk 7 [] _ 1 _ [120, 0] _ _ _ r1 (by omega) r2 m1
  have step2 : compoundLoop junk 7
      [([120, 0], .byteN (some [120, 0]) (toSigned 8 b1))]
      ⟨[1, 0, 1, 120, b1, 1, 0, 1, 120, b2, 0], 5, false, 0⟩ =
      compoundLoop junk 6
        (insertNew [([120, 0], .byteN (some [120, 0]) (toSigned 8 b1))]
          [120, 0] (.byteN (some [120, 0]) (toSigned 8 b2)))
        ⟨[1, 0, 1, 120, b1, 1, 0, 1, 120, b2, 0], 10, false, 0⟩ :=
    compoundLoop_step junk 6 _ _ 1 _ [120, 0] _ _ _ r4 (by omega) r5 m2
  have step3 : compoundLoop junk 6
      [([120, 0], .byteN (some [120, 0]) (toSigned 8 b1))]
      ⟨[1, 0, 1, 120, b1, 1, 0, 1, 120, b2, 0], 10, false, 0⟩ =
      .ok ([([120, 0], .byteN (some [120, 0]) (toSigned 8 b1))],
        ⟨[1, 0, 1, 120, b1, 1, 0, 1, 120, b2, 0], 11, false, 0⟩) :=
    compoundLoop_end junk 5 _ _ _ r7
  have hloop := step1.trans (step2.trans step3)
  exact decodeCompound_ok junk 8 none _ _ _ hloop

theorem duplicate_compound_keys_first_wins_witness :
    decodeCompound jzero 9 none
        ⟨[1, 0, 1, 120, 7, 1, 0, 1, 120, 9, 0], 0, false, 0⟩ =
      .ok (.compoundN none
          [([120, 0], .byteN (some [120, 0]) (toSigned 8 7))],
        ⟨[1, 0, 1, 120, 7, 1, 0, 1, 120, 9, 0], 11, false, 0⟩) :=
  duplicate_compound_keys_first_wins jzero 7 9 (by decide) (by decide)
